import Mathlib

/-!
Shallow embedding of the polling-cursor loop and the session registry of
the azbot-telegram repository.

Poller side (`src/azbot-telegram/bot-poller.js`, class `BotPoller`):
the mutable fields relevant to the claims are `isPolling`, `pollingID`
(whether a next cycle is scheduled) and `pollingParam["offset"]` (the
cursor).  The external `botAPI.getUpdates` call is modelled as a function
from the current offset to `Except Unit (List Update)`; the dispatch
callback `onUpdates` is modelled by a boolean oracle saying whether the
awaited callback completes or throws.  Each operation additionally
returns a trace of the externally observable calls it makes (fetch
invocations with the offset used, and batches handed to the dispatch
callback).

Master side (`src/aztgbot/bot-master.js`, ESM variant, class `BotMaster`):
the session map `this.bots` is an insertion-ordered association list from
identifier to `lastActiveTime`; the servant template's optional hooks
`onCreate` / `onRemove` are modelled by booleans (`isFunction` checks),
and invocations of `onCreate`, `processUpdate`, `onRemove` and the stop
callback are recorded in a trace.
-/

/-- A Telegram update: an ordinal `update_id` plus an opaque payload. -/
structure Update where
  update_id : Int
  payload : Nat
deriving DecidableEq, Repr

/-- Observable external calls made by the poller: a `getUpdates` request
with the offset it carries, and a batch handed to the `onUpdates`
dispatch callback. -/
inductive PEvent where
  | fetchCall (offset : Int)
  | dispatch (us : List Update)
deriving DecidableEq, Repr

/-- The poller state: `isPolling` flag, the cursor
`pollingParam["offset"]`, and whether a next cycle is scheduled
(`pollingID` holds a live timeout). -/
structure PollerState where
  isPolling : Bool
  offset : Int
  scheduled : Bool
deriving DecidableEq, Repr

/-- The poller state right after the constructor:
`isPolling = false`, `offset = 0`, no scheduled cycle. -/
def PollerState.init : PollerState :=
  { isPolling := false, offset := 0, scheduled := false }

/-- `BotPoller.skipUpdates`: set the offset to `-1`, fetch once; if the
fetch succeeds with a non-empty batch, set the offset to
`updates[0].update_id + 1`; a fetch failure is logged and swallowed.
The dispatch callback is never invoked here. -/
def skipUpdates (st : PollerState) (fetch : Int → Except Unit (List Update)) :
    PollerState × List PEvent :=
  let st1 : PollerState := { st with offset := -1 }
  match fetch (-1) with
  | .ok us =>
      if _ : 0 < us.length then
        ({ st1 with offset := us[0].update_id + 1 }, [.fetchCall (-1)])
      else
        (st1, [.fetchCall (-1)])
  | .error _ => (st1, [.fetchCall (-1)])

/-- The constructor stores `opts["skippingUpdates"]` unchanged and
`startPollUpdates` tests `skippingUpdates == null || skippingUpdates
=== true`; `none` models `undefined`/`null`. -/
def shouldSkip : Option Bool → Bool
  | none => true
  | some b => b

/-- `BotPoller.startPollUpdates`: a no-op when already polling;
otherwise run the backlog skip when enabled, set `isPolling` and invoke
`pollUpdates` (modelled as: a first cycle becomes scheduled). -/
def startPollUpdates (st : PollerState) (skippingUpdates : Option Bool)
    (fetch : Int → Except Unit (List Update)) : PollerState × List PEvent :=
  if st.isPolling then (st, [])
  else
    let (st1, tr) :=
      if shouldSkip skippingUpdates then skipUpdates st fetch else (st, [])
    ({ st1 with isPolling := true, scheduled := true }, tr)

/-- `BotPoller.stopPollUpdates`: when polling, clear `isPolling` and
cancel the scheduled cycle; otherwise a no-op. -/
def stopPollUpdates (st : PollerState) : PollerState :=
  if st.isPolling then { st with isPolling := false, scheduled := false }
  else st

/-- One run of `BotPoller.pollUpdates` (the azbot-telegram variant):
fetch with the current offset; on success with a non-empty batch, await
`onUpdates` (its completion is the oracle `dispatchOk`) and only then
advance the offset to `last.update_id + 1`; an exception from the fetch
or from the awaited dispatch is caught and sets the cool-down flag with
the offset unchanged.  A next cycle is scheduled iff `isPolling` still
holds.  Returns the new state, the trace, and the cool-down flag. -/
def pollCycle (st : PollerState) (fetch : Int → Except Unit (List Update))
    (dispatchOk : List Update → Bool) :
    PollerState × List PEvent × Bool :=
  match fetch st.offset with
  | .error _ => ({ st with scheduled := st.isPolling }, [.fetchCall st.offset], true)
  | .ok us =>
      if h : 0 < us.length then
        if dispatchOk us then
          ({ st with
              offset := (us.getLast (List.length_pos.mp h)).update_id + 1,
              scheduled := st.isPolling },
           [.fetchCall st.offset, .dispatch us], false)
        else
          ({ st with scheduled := st.isPolling },
           [.fetchCall st.offset, .dispatch us], true)
      else
        ({ st with scheduled := st.isPolling }, [.fetchCall st.offset], false)

/-- Run `n` polling cycles starting at cycle index `k`: each cycle
fetches with the current offset; the loop keeps rescheduling itself
while `isPolling` holds.  The fetch and dispatch oracles may vary per
cycle index. -/
def runPoll (fetch : Nat → Int → Except Unit (List Update))
    (dispatchOk : Nat → List Update → Bool) :
    Nat → Nat → PollerState → PollerState × List PEvent
  | _, 0, st => (st, [])
  | k, n + 1, st =>
      if st.isPolling then
        let (st1, tr, _) := pollCycle st (fetch k) (dispatchOk k)
        let (st2, trs) := runPoll fetch dispatchOk (k + 1) n st1
        (st2, tr ++ trs)
      else (st, [])

/-- The batches handed to the dispatch callback along a trace. -/
def dispatchedBatches (tr : List PEvent) : List (List Update) :=
  tr.filterMap (fun e => match e with
    | .dispatch us => some us
    | _ => none)

/-- How many dispatched batches of a trace contain an update with the
given `update_id`. -/
def deliveredCount (uid : Int) (tr : List PEvent) : Nat :=
  (dispatchedBatches tr).countP (fun us => us.any (fun u => u.update_id = uid))

/-! ## BotMaster: session registry -/

/-- Observable hook invocations made by `BotMaster`: servant
construction, `onCreate`, `processUpdate`, `onRemove`, and the stop
callback of `loop`. -/
inductive MEvent where
  | create (id : String)
  | onCreate (id : String)
  | processEvent (id : String) (uid : Int)
  | onRemove (id : String)
  | stopHook
deriving DecidableEq, Repr

/-- The session map `this.bots`: identifier to `lastActiveTime`, in
insertion order (a new entry is appended, as a fresh JS object key). -/
abbrev BotMap := List (String × Nat)

/-- `opts["destroyTimeout"] || 5 * 60 * 1000` from the `BotMaster`
constructor: the JS `||` replaces every falsy value — including `null`
(modelled as `none`) and `0` — by the 5-minute default. -/
def mkDestroyTimeout : Option Nat → Option Nat
  | none => some 300000
  | some v => if v = 0 then some 300000 else some v

/-- The lookup `this.bots[identifier]` on the session map. -/
def findBot (id : String) : BotMap → Option Nat
  | [] => none
  | (k, v) :: t => if k = id then some v else findBot id t

/-- `this.bots[identifier]["lastActiveTime"] = now`. -/
def setActive (id : String) (now : Nat) (bots : BotMap) : BotMap :=
  bots.map (fun e : String × Nat => if e.1 = id then (e.1, now) else e)

/-- The per-update loop of `BotMaster.onUpdates`: for each update in
order, look up its identifier; if absent, insert an entry with
`lastActiveTime = 0`, invoke `onCreate` when the servant exposes it,
then (present or not) invoke `processUpdate` and set
`lastActiveTime = now`. -/
def processLoop (identify : Update → String) (now : Nat) (hasOnCreate : Bool) :
    BotMap → List Update → BotMap × List MEvent
  | bots, [] => (bots, [])
  | bots, u :: rest =>
      let id := identify u
      match findBot id bots with
      | some _ =>
          let (b2, tr) := processLoop identify now hasOnCreate
            (setActive id now bots) rest
          (b2, .processEvent id u.update_id :: tr)
      | none =>
          let (b2, tr) := processLoop identify now hasOnCreate
            (setActive id now (bots ++ [(id, 0)])) rest
          (b2, .create id ::
            ((if hasOnCreate then [MEvent.onCreate id] else []) ++
              (MEvent.processEvent id u.update_id :: tr)))

/-- The post-batch sweep of `BotMaster.onUpdates`: when `destroyTimeout`
is non-null, every entry with `Date.now() - lastActiveTime >
destroyTimeout` gets `onRemove` (when the servant exposes it) and is
deleted from the map. -/
def sweepBots (now : Nat) (destroyTimeout : Option Nat) (hasOnRemove : Bool)
    (bots : BotMap) : BotMap × List MEvent :=
  match destroyTimeout with
  | none => (bots, [])
  | some T =>
      (bots.filter (fun e => !(decide (T < now - e.2))),
       (bots.filter (fun e => decide (T < now - e.2))).filterMap
         (fun e => if hasOnRemove then some (MEvent.onRemove e.1) else none))

/-- `BotMaster.onUpdates`: the per-update loop followed by the idle
sweep, both at the same observation time `now`. -/
def onUpdatesM (identify : Update → String) (now : Nat)
    (hasOnCreate hasOnRemove : Bool) (destroyTimeout : Option Nat)
    (bots : BotMap) (updates : List Update) : BotMap × List MEvent :=
  let (b1, tr1) := processLoop identify now hasOnCreate bots updates
  let (b2, tr2) := sweepBots now destroyTimeout hasOnRemove b1
  (b2, tr1 ++ tr2)

/-- The registry state seen by the shutdown path: the session map and
the embedded poller's state. -/
structure MasterState where
  bots : BotMap
  poller : PollerState
deriving DecidableEq, Repr

/-- The `cleanup` closure of `BotMaster.loop`: stop the poller, then for
every session invoke `onRemove` (when exposed) and delete the entry,
then invoke the stop callback when one was provided. -/
def cleanup (hasOnRemove hasStopCallback : Bool) (st : MasterState) :
    MasterState × List MEvent :=
  ({ bots := [], poller := stopPollUpdates st.poller },
   (if hasOnRemove then st.bots.map (fun e => MEvent.onRemove e.1) else []) ++
     (if hasStopCallback then [MEvent.stopHook] else []))

/-- `loop` registers `cleanup` with `process.on` for both SIGINT and
SIGTERM, so every delivered termination signal runs `cleanup` once
more; `n` signals run it `n` times, traces concatenated. -/
def runSignals (hasOnRemove hasStopCallback : Bool) :
    Nat → MasterState → MasterState × List MEvent
  | 0, st => (st, [])
  | n + 1, st =>
      let (st1, tr1) := cleanup hasOnRemove hasStopCallback st
      let (st2, tr2) := runSignals hasOnRemove hasStopCallback n st1
      (st2, tr1 ++ tr2)

/-- `onCreatePrecedes id tr = true` iff in `tr` no `processEvent` for
`id` occurs before an `onCreate` for `id`. -/
def onCreatePrecedes (id : String) : List MEvent → Bool
  | [] => true
  | .processEvent i _ :: rest => i ≠ id && onCreatePrecedes id rest
  | .onCreate i :: rest => i = id || onCreatePrecedes id rest
  | _ :: rest => onCreatePrecedes id rest

/-! ## Helper lemmas -/

theorem update_le_getLast : ∀ (us : List Update),
    List.Chain' (fun a b : Update => a.update_id ≤ b.update_id) us →
    ∀ (h : us ≠ []) (u : Update), u ∈ us →
      u.update_id ≤ (us.getLast h).update_id
  | [], _, h, _, _ => absurd rfl h
  | [_], _, _, u, hu => by
      rcases List.mem_singleton.mp hu with rfl
      simp [List.getLast]
  | a :: b :: t, hs, h, u, hu => by
      have hab : a.update_id ≤ b.update_id := (List.chain'_cons.mp hs).1
      have hs' := (List.chain'_cons.mp hs).2
      have hgl : ((a :: b :: t).getLast h) = ((b :: t).getLast (by simp)) := by
        rw [List.getLast_cons]
      rw [hgl]
      rcases List.mem_cons.mp hu with rfl | hu'
      · exact le_trans hab
          (update_le_getLast (b :: t) hs' (by simp) b (List.mem_cons_self b t))
      · exact update_le_getLast (b :: t) hs' (by simp) u hu'

theorem pollCycle_fetches_current_offset (st : PollerState)
    (fetch : Int → Except Unit (List Update)) (dispatchOk : List Update → Bool) :
    ((pollCycle st fetch dispatchOk).2.1).head? = some (.fetchCall st.offset) := by
  unfold pollCycle
  cases fetch st.offset with
  | error e => simp
  | ok us =>
      by_cases h : 0 < us.length
      · by_cases hd : dispatchOk us = true <;> simp [h, hd]
      · simp [h]

/-! ## Claims about the poller -/

/-- C1: after a polling cycle, the cursor equals `max(update_id) + 1` of
the batch when the batch is non-empty (given the remote API's ascending
order) and the awaited dispatch completes; it is unchanged when the
batch is empty or the fetch fails. -/
theorem c1_cursor_after_cycle (st : PollerState)
    (fetch : Int → Except Unit (List Update)) (dispatchOk : List Update → Bool) :
    (fetch st.offset = .error () →
      (pollCycle st fetch dispatchOk).1.offset = st.offset) ∧
    (fetch st.offset = .ok [] →
      (pollCycle st fetch dispatchOk).1.offset = st.offset) ∧
    (∀ us, fetch st.offset = .ok us → us ≠ [] →
      List.Chain' (fun a b : Update => a.update_id ≤ b.update_id) us →
      dispatchOk us = true →
      ∃ m : Int, (us.map Update.update_id).maximum = (m : WithBot Int) ∧
        (pollCycle st fetch dispatchOk).1.offset = m + 1) := by
  refine ⟨?_, ?_, ?_⟩
  · intro hf; simp [pollCycle, hf]
  · intro hf; simp [pollCycle, hf]
  · intro us hf hne hs hd
    have hlen : 0 < us.length := List.length_pos.mpr hne
    refine ⟨(us.getLast hne).update_id, ?_, ?_⟩
    · rw [List.maximum_eq_coe_iff]
      constructor
      · exact List.mem_map_of_mem Update.update_id (List.getLast_mem hne)
      · intro a ha
        rcases List.mem_map.mp ha with ⟨u, hu, rfl⟩
        exact update_le_getLast us hs hne u hu
    · simp [pollCycle, hf, hlen, hd]

/-- C1 witness: with cursor 0, a successful fetch of `[{update_id: 5}]`
and a completing dispatch, the cursor becomes 6. -/
theorem c1_cursor_after_cycle_witness :
    ∃ m : Int,
      (([⟨5, 0⟩] : List Update).map Update.update_id).maximum = (m : WithBot Int) ∧
      (pollCycle { isPolling := true, offset := 0, scheduled := true }
        (fun _ => .ok [⟨5, 0⟩]) (fun _ => true)).1.offset = m + 1 :=
  (c1_cursor_after_cycle _ _ _).2.2 [⟨5, 0⟩] rfl (by decide)
    (List.chain'_singleton _) rfl

/-- C2: in a cycle with a non-empty batch the batch is handed to the
dispatch callback, and the cursor advances exactly when the awaited
dispatch completes; if the dispatch throws, the cursor is unchanged, the
cool-down flag is set, and the next cycle fetches from the same cursor
(retrying the whole batch). -/
theorem c2_dispatch_failure_retries (st : PollerState)
    (fetch : Int → Except Unit (List Update)) (dispatchOk : List Update → Bool)
    (us : List Update) (hf : fetch st.offset = .ok us) (hne : us ≠ []) :
    (pollCycle st fetch dispatchOk).2.1 =
      [.fetchCall st.offset, .dispatch us] ∧
    (dispatchOk us = false →
      (pollCycle st fetch dispatchOk).1.offset = st.offset ∧
      (pollCycle st fetch dispatchOk).2.2 = true ∧
      ∀ (fetch2 : Int → Except Unit (List Update))
        (dispatchOk2 : List Update → Bool),
        ((pollCycle (pollCycle st fetch dispatchOk).1 fetch2 dispatchOk2).2.1).head?
          = some (.fetchCall st.offset)) ∧
    (dispatchOk us = true →
      (pollCycle st fetch dispatchOk).1.offset = (us.getLast hne).update_id + 1) := by
  have hlen : 0 < us.length := List.length_pos.mpr hne
  refine ⟨?_, ?_, ?_⟩
  · by_cases hd : dispatchOk us = true <;> simp [pollCycle, hf, hlen, hd]
  · intro hd
    refine ⟨?_, ?_, ?_⟩
    · simp [pollCycle, hf, hlen, hd]
    · simp [pollCycle, hf, hlen, hd]
    · intro fetch2 dispatchOk2
      have hoff : (pollCycle st fetch dispatchOk).1.offset = st.offset := by
        simp [pollCycle, hf, hlen, hd]
      rw [pollCycle_fetches_current_offset, hoff]
  · intro hd
    simp [pollCycle, hf, hlen, hd]

/-- C2 witness: cursor 0, fetch returns `[{update_id: 5}]`, the dispatch
callback throws: the batch was handed over, the cursor stays 0, the
cool-down flag is set, and the following cycle fetches at cursor 0. -/
theorem c2_dispatch_failure_retries_witness :
    (pollCycle { isPolling := true, offset := 0, scheduled := true }
        (fun _ => .ok [⟨5, 0⟩]) (fun _ => false)).2.1 =
      [.fetchCall 0, .dispatch [⟨5, 0⟩]] ∧
    ((fun _ : List Update => false) [(⟨5, 0⟩ : Update)] = false →
      (pollCycle { isPolling := true, offset := 0, scheduled := true }
          (fun _ => .ok [⟨5, 0⟩]) (fun _ => false)).1.offset = 0 ∧
      (pollCycle { isPolling := true, offset := 0, scheduled := true }
          (fun _ => .ok [⟨5, 0⟩]) (fun _ => false)).2.2 = true ∧
      ∀ (fetch2 : Int → Except Unit (List Update))
        (dispatchOk2 : List Update → Bool),
        ((pollCycle (pollCycle { isPolling := true, offset := 0, scheduled := true }
            (fun _ => .ok [⟨5, 0⟩]) (fun _ => false)).1 fetch2 dispatchOk2).2.1).head?
          = some (.fetchCall 0)) ∧
    ((fun _ : List Update => false) [(⟨5, 0⟩ : Update)] = true →
      (pollCycle { isPolling := true, offset := 0, scheduled := true }
          (fun _ => .ok [⟨5, 0⟩]) (fun _ => false)).1.offset =
        (([⟨5, 0⟩] : List Update).getLast (by decide)).update_id + 1) :=
  c2_dispatch_failure_retries _ _ _ [⟨5, 0⟩] rfl (by decide)

/-- C3: with skip-backlog enabled and the loop not yet polling, starting
performs exactly one fetch, at cursor −1, hands nothing to the dispatch
callback, and polling begins regardless of the outcome; a non-empty
result sets the cursor to the first returned event's `update_id + 1`. -/
theorem c3_skip_backlog (st : PollerState) (sk : Option Bool)
    (fetch : Int → Except Unit (List Update))
    (hp : st.isPolling = false) (hsk : shouldSkip sk = true) :
    (startPollUpdates st sk fetch).2 = [PEvent.fetchCall (-1)] ∧
    (startPollUpdates st sk fetch).1.isPolling = true ∧
    (∀ e rest, fetch (-1) = .ok (e :: rest) →
      (startPollUpdates st sk fetch).1.offset = e.update_id + 1) ∧
    (fetch (-1) = .error () →
      (startPollUpdates st sk fetch).1.offset = -1 ∧
      (startPollUpdates st sk fetch).1.isPolling = true) := by
  refine ⟨?_, ?_, ?_, ?_⟩
  · unfold startPollUpdates skipUpdates
    rw [hp, hsk]
    cases fetch (-1) with
    | error e => simp
    | ok us =>
        by_cases h : 0 < us.length <;> simp [h]
  · simp [startPollUpdates, hp]
  · intro e rest hf
    simp [startPollUpdates, skipUpdates, hp, hsk, hf]
  · intro hf
    simp [startPollUpdates, skipUpdates, hp, hsk, hf]

/-- C3 witness: a pending single event with `update_id = 41` makes the
skip step set the cursor to 42 while handing nothing to the dispatch
callback, and polling begins. -/
theorem c3_skip_backlog_witness :
    (startPollUpdates PollerState.init none (fun _ => .ok [⟨41, 0⟩])).2 =
      [PEvent.fetchCall (-1)] ∧
    (startPollUpdates PollerState.init none (fun _ => .ok [⟨41, 0⟩])).1.isPolling
      = true ∧
    (∀ e rest, (fun _ : Int => (.ok [⟨41, 0⟩] : Except Unit (List Update))) (-1)
        = .ok (e :: rest) →
      (startPollUpdates PollerState.init none (fun _ => .ok [⟨41, 0⟩])).1.offset
        = e.update_id + 1) ∧
    ((fun _ : Int => (.ok [⟨41, 0⟩] : Except Unit (List Update))) (-1)
        = .error () →
      (startPollUpdates PollerState.init none (fun _ => .ok [⟨41, 0⟩])).1.offset
          = -1 ∧
      (startPollUpdates PollerState.init none (fun _ => .ok [⟨41, 0⟩])).1.isPolling
          = true) :=
  c3_skip_backlog PollerState.init none (fun _ => .ok [⟨41, 0⟩]) rfl rfl

theorem startPollUpdates_of_isPolling (st : PollerState) (sk : Option Bool)
    (fetch : Int → Except Unit (List Update)) (h : st.isPolling = true) :
    startPollUpdates st sk fetch = (st, []) := by
  simp [startPollUpdates, h]

/-- C9: `startPollUpdates` is a no-op when already polling and
`stopPollUpdates` is a no-op when not polling, so calling either twice
in a row leaves the poller state (flag, cursor, scheduled cycle) as
calling it once. -/
theorem c9_start_stop_idempotent (st : PollerState) (sk : Option Bool)
    (fetch : Int → Except Unit (List Update)) :
    (startPollUpdates (startPollUpdates st sk fetch).1 sk fetch).1 =
      (startPollUpdates st sk fetch).1 ∧
    stopPollUpdates (stopPollUpdates st) = stopPollUpdates st := by
  constructor
  · have hpoll : (startPollUpdates st sk fetch).1.isPolling = true := by
      unfold startPollUpdates
      by_cases hp : st.isPolling
      · simp [hp]
      · simp [hp]
    rw [startPollUpdates_of_isPolling _ sk fetch hpoll]
  · unfold stopPollUpdates
    by_cases hp : st.isPolling <;> simp [hp]

/-- C10: when the skip-backlog fetch fails, the cursor is left at −1
(not restored to its prior value 0), so the first normal polling cycle
requests updates at offset −1. -/
theorem c10_failed_skip_leaves_minus_one (st : PollerState) (sk : Option Bool)
    (fetch : Int → Except Unit (List Update))
    (dispatchOk : List Update → Bool)
    (hp : st.isPolling = false) (hsk : shouldSkip sk = true)
    (hf : fetch (-1) = .error ()) :
    (startPollUpdates st sk fetch).1.offset = -1 ∧
    ((pollCycle (startPollUpdates st sk fetch).1 fetch dispatchOk).2.1).head? =
      some (.fetchCall (-1)) := by
  have hoff : (startPollUpdates st sk fetch).1.offset = -1 := by
    simp [startPollUpdates, skipUpdates, hp, hsk, hf]
  exact ⟨hoff, by rw [pollCycle_fetches_current_offset, hoff]⟩

/-- C10 witness: starting from the constructor state (cursor 0) with a
fetch that always fails, the cursor after the skip step is −1 and the
first polling cycle fetches at −1. -/
theorem c10_failed_skip_leaves_minus_one_witness :
    (startPollUpdates PollerState.init none (fun _ => .error ())).1.offset = -1 ∧
    ((pollCycle (startPollUpdates PollerState.init none (fun _ => .error ())).1
        (fun _ => .error ()) (fun _ => true)).2.1).head? =
      some (.fetchCall (-1)) :=
  c10_failed_skip_leaves_minus_one PollerState.init none (fun _ => .error ())
    (fun _ => true) rfl rfl rfl

/-! ## Claims about the session registry -/

/-- C5 counterexample: idle threshold 100, a session last active at
`t = 0`, and a sweep at exactly `now = t + T = 100`: the code's strict
comparison `now - lastActiveTime > destroyTimeout` keeps the session and
invokes no `onRemove`, while the claim demands eviction at the first
sweep at or after `t + T`. -/
theorem c5_sweep_at_exact_threshold_keeps :
    (sweepBots 100 (some 100) true [("a", 0)]).1 = [("a", 0)] ∧
    ¬ MEvent.onRemove "a" ∈ (sweepBots 100 (some 100) true [("a", 0)]).2 := by
  constructor
  · rfl
  · simp [sweepBots]

/-- C5 (amended): a session last active at `t` is evicted by the sweep
at time `now` exactly when `now` is strictly after `t + T`: at
`now ≤ t + T` the entry survives, and at `t + T < now` it is removed
and `onRemove` is invoked when the servant exposes it. -/
theorem c5_eviction_strictly_after (now T t : Nat) (id : String)
    (hasOnRemove : Bool) (bots : BotMap) (hmem : (id, t) ∈ bots) :
    (now ≤ t + T → (id, t) ∈ (sweepBots now (some T) hasOnRemove bots).1) ∧
    (t + T < now →
      (id, t) ∉ (sweepBots now (some T) hasOnRemove bots).1 ∧
      (hasOnRemove = true →
        MEvent.onRemove id ∈ (sweepBots now (some T) hasOnRemove bots).2)) := by
  constructor
  · intro hle
    have hpred : (!(decide (T < now - t))) = true := by
      simp only [Bool.not_eq_true', decide_eq_false_iff_not]
      omega
    exact List.mem_filter.mpr ⟨hmem, hpred⟩
  · intro hlt
    have hpred : decide (T < now - t) = true := by
      simp only [decide_eq_true_eq]
      omega
    constructor
    · intro hin
      have := (List.mem_filter.mp hin).2
      rw [hpred] at this
      simp at this
    · intro hrem
      refine List.mem_filterMap.mpr ⟨(id, t), ?_, ?_⟩
      · exact List.mem_filter.mpr ⟨hmem, hpred⟩
      · simp [hrem]

/-- C5 witness: with threshold 100 and last activity at 0, the sweep at
100 keeps the session and the sweep at 101 removes it with `onRemove`. -/
theorem c5_eviction_strictly_after_witness :
    ((100 ≤ 0 + 100 → ("a", 0) ∈ (sweepBots 100 (some 100) true [("a", 0)]).1) ∧
      (0 + 100 < 100 →
        ("a", 0) ∉ (sweepBots 100 (some 100) true [("a", 0)]).1 ∧
        (true = true →
          MEvent.onRemove "a" ∈ (sweepBots 100 (some 100) true [("a", 0)]).2))) ∧
    ((101 ≤ 0 + 100 → ("a", 0) ∈ (sweepBots 101 (some 100) true [("a", 0)]).1) ∧
      (0 + 100 < 101 →
        ("a", 0) ∉ (sweepBots 101 (some 100) true [("a", 0)]).1 ∧
        (true = true →
          MEvent.onRemove "a" ∈ (sweepBots 101 (some 100) true [("a", 0)]).2))) :=
  ⟨c5_eviction_strictly_after 100 100 0 "a" true [("a", 0)] (by simp),
   c5_eviction_strictly_after 101 100 0 "a" true [("a", 0)] (by simp)⟩

/-- C6: the constructor's `opts["destroyTimeout"] || 5 * 60 * 1000`
replaces `null` (and any falsy value) by the 5-minute default, so the
sweep's `destroyTimeout != null` guard can never see `null`: with the
option set to `null`, an idle session is still evicted. -/
theorem c6_null_timeout_still_evicts :
    mkDestroyTimeout none = some 300000 ∧
    (∀ opt : Option Nat, mkDestroyTimeout opt ≠ none) ∧
    (sweepBots 300001 (mkDestroyTimeout none) true [("a", 0)]).1 = [] ∧
    (sweepBots 300001 (mkDestroyTimeout none) true [("a", 0)]).2 =
      [MEvent.onRemove "a"] := by
  refine ⟨rfl, ?_, ?_, ?_⟩
  · intro opt
    cases opt with
    | none => simp [mkDestroyTimeout]
    | some v =>
        by_cases hv : v = 0 <;> simp [mkDestroyTimeout, hv]
  · rfl
  · rfl

theorem stopPollUpdates_not_polling (p : PollerState) :
    (stopPollUpdates p).isPolling = false := by
  unfold stopPollUpdates
  by_cases hp : p.isPolling <;> simp [hp]

theorem runSignals_drained (hasOnRemove hasStop : Bool) (p : PollerState)
    (hp : p.isPolling = false) (n : Nat) :
    runSignals hasOnRemove hasStop n { bots := [], poller := p } =
      ({ bots := [], poller := p },
        if hasStop then List.replicate n MEvent.stopHook else []) := by
  induction n with
  | zero => simp [runSignals]
  | succ n ih =>
      have hstop : stopPollUpdates p = p := by simp [stopPollUpdates, hp]
      simp only [runSignals, cleanup, List.map_nil, List.nil_append, hstop, ih]
      cases hasStop <;> simp [List.replicate_succ]

/-- C4 counterexample: with one live session, a provided stop callback
and two delivered termination signals, the shutdown sequence runs twice:
the stop callback is invoked twice, so it does not run at most once. -/
theorem c4_second_signal_reruns_shutdown :
    ¬ ((runSignals true true 2
        { bots := [("a", 0)],
          poller := { isPolling := true, offset := 6, scheduled := true } }).2.count
        MEvent.stopHook ≤ 1) := by
  decide

/-- C4 (amended): every delivered termination signal runs the `cleanup`
closure once — there is no re-entry guard, so `n` signals invoke the
stop callback `n` times.  Still, the poll loop is stopped, the session
map is emptied, and the whole trace is exactly one `onRemove` per
session live at shutdown (when the servant exposes it) followed by the
stop-callback invocations, so `onRemove` runs exactly once per session
and before any stop-callback call. -/
theorem c4_shutdown_trace (hasOnRemove hasStop : Bool) (st : MasterState)
    (n : Nat) (hn : 1 ≤ n) :
    (runSignals hasOnRemove hasStop n st).1.bots = [] ∧
    (runSignals hasOnRemove hasStop n st).1.poller.isPolling = false ∧
    (runSignals hasOnRemove hasStop n st).2 =
      (if hasOnRemove then st.bots.map (fun e => MEvent.onRemove e.1) else []) ++
        (if hasStop then List.replicate n MEvent.stopHook else []) := by
  cases n with
  | zero => omega
  | succ m =>
      have hp : (stopPollUpdates st.poller).isPolling = false :=
        stopPollUpdates_not_polling st.poller
      have h1 : runSignals hasOnRemove hasStop (m + 1) st =
          (({ bots := [], poller := stopPollUpdates st.poller } : MasterState),
            ((if hasOnRemove then st.bots.map (fun e => MEvent.onRemove e.1)
                else []) ++
              (if hasStop then [MEvent.stopHook] else [])) ++
            (if hasStop then List.replicate m MEvent.stopHook else [])) := by
        simp only [runSignals, cleanup]
        rw [runSignals_drained hasOnRemove hasStop _ hp m]
      rw [h1]
      refine ⟨rfl, hp, ?_⟩
      cases hasStop <;> simp [List.replicate_succ]

/-- C4 witness: one live session, stop callback present, two signals —
the trace is `onRemove "a"` followed by two stop-callback invocations,
with the poller stopped and the map emptied. -/
theorem c4_shutdown_trace_witness :
    (runSignals true true 2
      { bots := [("a", 0)],
        poller := { isPolling := true, offset := 6, scheduled := true } }).1.bots
        = [] ∧
    (runSignals true true 2
      { bots := [("a", 0)],
        poller :=
          { isPolling := true, offset := 6, scheduled := true } }).1.poller.isPolling
      = false ∧
    (runSignals true true 2
      { bots := [("a", 0)],
        poller := { isPolling := true, offset := 6, scheduled := true } }).2 =
      (if true then
          ([(("a" : String), (0 : Nat))]).map (fun e => MEvent.onRemove e.1)
        else []) ++
        (if true then List.replicate 2 MEvent.stopHook else []) :=
  c4_shutdown_trace true true
    { bots := [("a", 0)],
      poller := { isPolling := true, offset := 6, scheduled := true } }
    2 (by decide)

/-- Count the occurrences of one hook invocation in a trace. -/
def countEv (ev : MEvent) : List MEvent → Nat
  | [] => 0
  | e :: t => (if e = ev then 1 else 0) + countEv ev t

theorem countEv_append (ev : MEvent) (a b : List MEvent) :
    countEv ev (a ++ b) = countEv ev a + countEv ev b := by
  induction a with
  | nil => simp [countEv]
  | cons e t ih => simp [countEv, ih]; omega

theorem findBot_setActive (id c : String) (now : Nat) (l : BotMap) :
    (findBot id (setActive c now l)).isSome = (findBot id l).isSome := by
  induction l with
  | nil => rfl
  | cons e t ih =>
      obtain ⟨k, v⟩ := e
      show (findBot id
          ((if k = c then (k, now) else (k, v)) :: setActive c now t)).isSome
        = (findBot id ((k, v) :: t)).isSome
      by_cases hkc : k = c
      · rw [if_pos hkc]
        show (if k = id then some now else findBot id (setActive c now t)).isSome
          = (if k = id then some v else findBot id t).isSome
        by_cases hki : k = id
        · rw [if_pos hki, if_pos hki]; rfl
        · rw [if_neg hki, if_neg hki]; exact ih
      · rw [if_neg hkc]
        show (if k = id then some v else findBot id (setActive c now t)).isSome
          = (if k = id then some v else findBot id t).isSome
        by_cases hki : k = id
        · rw [if_pos hki, if_pos hki]
        · rw [if_neg hki, if_neg hki]; exact ih

theorem findBot_setActive_none (id c : String) (now : Nat) (l : BotMap)
    (h : findBot id l = none) : findBot id (setActive c now l) = none := by
  have hs := findBot_setActive id c now l
  rw [h] at hs
  cases hx : findBot id (setActive c now l) with
  | none => rfl
  | some v => rw [hx] at hs; simp at hs

theorem findBot_append_self (id : String) (v : Nat) (l : BotMap) :
    (findBot id (l ++ [(id, v)])).isSome = true := by
  induction l with
  | nil => simp [findBot]
  | cons e t ih =>
      obtain ⟨k, w⟩ := e
      by_cases hk : k = id <;> simp [findBot, hk, ih]

theorem findBot_append_ne (id c : String) (v : Nat) (h : ¬ c = id) (l : BotMap) :
    findBot id (l ++ [(c, v)]) = findBot id l := by
  induction l with
  | nil => simp [findBot, h]
  | cons e t ih =>
      obtain ⟨k, w⟩ := e
      by_cases hk : k = id <;> simp [findBot, hk, ih]

theorem processLoop_create_count (identify : Update → String) (now : Nat)
    (hoc : Bool) (id : String) : ∀ (us : List Update) (bots : BotMap),
    ((findBot id bots).isSome = true →
      countEv (MEvent.create id) (processLoop identify now hoc bots us).2 = 0) ∧
    countEv (MEvent.create id) (processLoop identify now hoc bots us).2 ≤ 1 := by
  intro us
  induction us with
  | nil => intro bots; simp [processLoop, countEv]
  | cons u rest ih =>
      intro bots
      cases hfind : findBot (identify u) bots with
      | some v =>
          have hcount :
              countEv (MEvent.create id)
                (processLoop identify now hoc bots (u :: rest)).2 =
              countEv (MEvent.create id)
                (processLoop identify now hoc
                  (setActive (identify u) now bots) rest).2 := by
            simp [processLoop, hfind, countEv]
          constructor
          · intro hsome
            rw [hcount]
            exact (ih (setActive (identify u) now bots)).1
              (by rw [findBot_setActive]; exact hsome)
          · rw [hcount]
            exact (ih (setActive (identify u) now bots)).2
      | none =>
          by_cases hci : identify u = id
          · subst hci
            have hsome1 :
                (findBot (identify u)
                  (setActive (identify u) now (bots ++ [(identify u, 0)]))).isSome
                  = true := by
              rw [findBot_setActive]
              exact findBot_append_self (identify u) 0 bots
            have hzero :
                countEv (MEvent.create (identify u))
                  (processLoop identify now hoc
                    (setActive (identify u) now (bots ++ [(identify u, 0)]))
                    rest).2 = 0 :=
              (ih _).1 hsome1
            constructor
            · intro hsome
              rw [hfind] at hsome
              simp at hsome
            · cases hoc <;>
                simp [processLoop, hfind, countEv, countEv_append, hzero]
          · have heq :
                countEv (MEvent.create id)
                  (processLoop identify now hoc bots (u :: rest)).2 =
                countEv (MEvent.create id)
                  (processLoop identify now hoc
                    (setActive (identify u) now (bots ++ [(identify u, 0)]))
                    rest).2 := by
              cases hoc <;>
                simp [processLoop, hfind, countEv, countEv_append, hci]
            constructor
            · intro hsome
              rw [heq]
              refine (ih _).1 ?_
              rw [findBot_setActive, findBot_append_ne id (identify u) 0 hci]
              exact hsome
            · rw [heq]
              exact (ih _).2

theorem sweep_trace_only_removes (now : Nat) (dt : Option Nat) (hor : Bool)
    (bots : BotMap) :
    ∀ ev ∈ (sweepBots now dt hor bots).2, ∃ i, ev = MEvent.onRemove i := by
  cases dt with
  | none => intro ev hev; simp [sweepBots] at hev
  | some T =>
      intro ev hev
      simp only [sweepBots] at hev
      rcases List.mem_filterMap.mp hev with ⟨e, _, hfe⟩
      cases hor with
      | false => simp at hfe
      | true => exact ⟨e.1, by simpa using hfe.symm⟩

theorem countEv_create_of_only_removes (id : String) :
    ∀ tr : List MEvent, (∀ ev ∈ tr, ∃ i, ev = MEvent.onRemove i) →
      countEv (MEvent.create id) tr = 0 := by
  intro tr
  induction tr with
  | nil => intro _; rfl
  | cons e t ih =>
      intro h
      rcases h e (List.mem_cons_self e t) with ⟨i, rfl⟩
      simp only [countEv]
      rw [ih (fun ev hev => h ev (List.mem_cons_of_mem _ hev))]
      simp

theorem onCreatePrecedes_of_only_removes (id : String) :
    ∀ tr : List MEvent, (∀ ev ∈ tr, ∃ i, ev = MEvent.onRemove i) →
      onCreatePrecedes id tr = true := by
  intro tr
  induction tr with
  | nil => intro _; rfl
  | cons e t ih =>
      intro h
      rcases h e (List.mem_cons_self e t) with ⟨i, rfl⟩
      simp only [onCreatePrecedes]
      exact ih (fun ev hev => h ev (List.mem_cons_of_mem _ hev))

theorem onCreatePrecedes_append_removes (id : String) :
    ∀ (tr1 tr2 : List MEvent), onCreatePrecedes id tr1 = true →
      (∀ ev ∈ tr2, ∃ i, ev = MEvent.onRemove i) →
      onCreatePrecedes id (tr1 ++ tr2) = true := by
  intro tr1
  induction tr1 with
  | nil =>
      intro tr2 _ h2
      exact onCreatePrecedes_of_only_removes id tr2 h2
  | cons e t ih =>
      intro tr2 h1 h2
      cases e with
      | processEvent i uid =>
          simp only [onCreatePrecedes, Bool.and_eq_true] at h1 ⊢
          exact ⟨h1.1, ih tr2 h1.2 h2⟩
      | onCreate i =>
          simp only [onCreatePrecedes, Bool.or_eq_true] at h1 ⊢
          rcases h1 with h1 | h1
          · exact Or.inl h1
          · exact Or.inr (ih tr2 h1 h2)
      | create i =>
          simp only [onCreatePrecedes] at h1 ⊢
          exact ih tr2 h1 h2
      | onRemove i =>
          simp only [onCreatePrecedes] at h1 ⊢
          exact ih tr2 h1 h2
      | stopHook =>
          simp only [onCreatePrecedes] at h1 ⊢
          exact ih tr2 h1 h2

theorem processLoop_onCreate_precedes (identify : Update → String) (now : Nat)
    (id : String) : ∀ (us : List Update) (bots : BotMap),
    findBot id bots = none →
    onCreatePrecedes id (processLoop identify now true bots us).2 = true := by
  intro us
  induction us with
  | nil => intro bots _; rfl
  | cons u rest ih =>
      intro bots hnone
      cases hfind : findBot (identify u) bots with
      | some v =>
          have hne : identify u ≠ id := by
            intro h
            rw [h, hnone] at hfind
            cases hfind
          have hrec := ih (setActive (identify u) now bots)
            (findBot_setActive_none id (identify u) now bots hnone)
          simp [processLoop, hfind, onCreatePrecedes, hne, hrec]
      | none =>
          by_cases hci : identify u = id
          · subst hci
            simp [processLoop, hfind, onCreatePrecedes]
          · have hnone' :
                findBot id
                  (setActive (identify u) now (bots ++ [(identify u, 0)])) = none := by
              apply findBot_setActive_none
              rw [findBot_append_ne id (identify u) 0 hci]
              exact hnone
            have hrec := ih _ hnone'
            simp [processLoop, hfind, onCreatePrecedes, hci, hrec]

/-- C7: in one `onUpdates` call, a servant is constructed at most once
per identifier, never when the identifier already has a live session,
and — when the servant exposes `onCreate` — no `processUpdate` for a
fresh identifier precedes its `onCreate`. -/
theorem c7_create_once_onCreate_first (identify : Update → String) (now : Nat)
    (hasOnCreate hasOnRemove : Bool) (destroyTimeout : Option Nat)
    (bots : BotMap) (updates : List Update) (id : String) :
    countEv (MEvent.create id)
      (onUpdatesM identify now hasOnCreate hasOnRemove destroyTimeout
        bots updates).2 ≤ 1 ∧
    ((findBot id bots).isSome = true →
      countEv (MEvent.create id)
        (onUpdatesM identify now hasOnCreate hasOnRemove destroyTimeout
          bots updates).2 = 0) ∧
    (findBot id bots = none → hasOnCreate = true →
      onCreatePrecedes id
        (onUpdatesM identify now hasOnCreate hasOnRemove destroyTimeout
          bots updates).2 = true) := by
  have hsweep0 :
      countEv (MEvent.create id)
        (sweepBots now destroyTimeout hasOnRemove
          (processLoop identify now hasOnCreate bots updates).1).2 = 0 :=
    countEv_create_of_only_removes id _
      (sweep_trace_only_removes now destroyTimeout hasOnRemove _)
  have htr :
      (onUpdatesM identify now hasOnCreate hasOnRemove destroyTimeout
          bots updates).2 =
        (processLoop identify now hasOnCreate bots updates).2 ++
          (sweepBots now destroyTimeout hasOnRemove
            (processLoop identify now hasOnCreate bots updates).1).2 := by
    simp [onUpdatesM]
  refine ⟨?_, ?_, ?_⟩
  · rw [htr, countEv_append, hsweep0]
    simpa using (processLoop_create_count identify now hasOnCreate id
      updates bots).2
  · intro hsome
    rw [htr, countEv_append, hsweep0]
    simp [(processLoop_create_count identify now hasOnCreate id
      updates bots).1 hsome]
  · intro hnone hoc
    subst hoc
    rw [htr]
    exact onCreatePrecedes_append_removes id _ _
      (processLoop_onCreate_precedes identify now id updates bots hnone)
      (sweep_trace_only_removes now destroyTimeout hasOnRemove _)

/-- C7 witness: with every update mapped to identifier `"a"`, a second
event for `"a"` in an earlier-populated map constructs nothing, and for
a fresh `"a"` the `onCreate` call precedes the first `processUpdate`. -/
theorem c7_create_once_onCreate_first_witness :
    countEv (MEvent.create "a")
      (onUpdatesM (fun _ => "a") 50 true true (some 300000)
        [("a", 7)] [⟨1, 0⟩]).2 = 0 ∧
    onCreatePrecedes "a"
      (onUpdatesM (fun _ => "a") 50 true true (some 300000)
        [] [⟨1, 0⟩, ⟨2, 0⟩]).2 = true :=
  ⟨(c7_create_once_onCreate_first (fun _ => "a") 50 true true (some 300000)
      [("a", 7)] [⟨1, 0⟩] "a").2.1 (by decide),
   (c7_create_once_onCreate_first (fun _ => "a") 50 true true (some 300000)
      [] [⟨1, 0⟩, ⟨2, 0⟩] "a").2.2 rfl rfl⟩

/-- C8 counterexample: a fetch that (faithfully to the remote contract)
keeps returning the pending update 5 while the cursor is 0, and a
dispatch callback that throws on the first cycle and completes on the
second: update 5 is handed to the dispatch callback in two different
batches within one run. -/
theorem c8_redelivery_after_failed_dispatch :
    ¬ (deliveredCount 5 (runPoll
        (fun _ c => if c = 0 then .ok [⟨5, 0⟩] else .ok [])
        (fun k _ => decide (0 < k)) 0 2
        { isPolling := true, offset := 0, scheduled := true }).2 ≤ 1) := by
  decide

theorem runPoll_trace_succ (fetch : Nat → Int → Except Unit (List Update))
    (dispatchOk : Nat → List Update → Bool) (k n : Nat) (st : PollerState)
    (hp : st.isPolling = true) :
    (runPoll fetch dispatchOk k (n + 1) st).2 =
      (pollCycle st (fetch k) (dispatchOk k)).2.1 ++
        (runPoll fetch dispatchOk (k + 1) n
          (pollCycle st (fetch k) (dispatchOk k)).1).2 := by
  simp [runPoll, hp]

theorem runPoll_trace_stopped (fetch : Nat → Int → Except Unit (List Update))
    (dispatchOk : Nat → List Update → Bool) (k n : Nat) (st : PollerState)
    (hp : st.isPolling = false) :
    (runPoll fetch dispatchOk k (n + 1) st).2 = [] := by
  simp [runPoll, hp]

theorem deliveredCount_append (uid : Int) (a b : List PEvent) :
    deliveredCount uid (a ++ b) =
      deliveredCount uid a + deliveredCount uid b := by
  simp [deliveredCount, dispatchedBatches, List.filterMap_append,
    List.countP_append]

theorem deliveredCount_fetch_only (uid c : Int) :
    deliveredCount uid [PEvent.fetchCall c] = 0 := rfl

theorem deliveredCount_cycle (uid c : Int) (us : List Update) :
    deliveredCount uid [PEvent.fetchCall c, PEvent.dispatch us] =
      if us.any (fun u => u.update_id = uid) then 1 else 0 := by
  simp [deliveredCount, dispatchedBatches, List.countP_cons]

theorem pollCycle_trace_of_ok (st : PollerState)
    (fetch : Int → Except Unit (List Update)) (dispatchOk : List Update → Bool)
    (us : List Update) (hf : fetch st.offset = .ok us) (hl : 0 < us.length) :
    (pollCycle st fetch dispatchOk).2.1 =
      [.fetchCall st.offset, .dispatch us] := by
  by_cases hd : dispatchOk us = true <;> simp [pollCycle, hf, hl, hd]

theorem pollCycle_trace_of_error (st : PollerState)
    (fetch : Int → Except Unit (List Update)) (dispatchOk : List Update → Bool)
    (e : Unit) (hf : fetch st.offset = .error e) :
    (pollCycle st fetch dispatchOk).2.1 = [.fetchCall st.offset] := by
  simp [pollCycle, hf]

theorem pollCycle_trace_of_empty (st : PollerState)
    (fetch : Int → Except Unit (List Update)) (dispatchOk : List Update → Bool)
    (us : List Update) (hf : fetch st.offset = .ok us) (hl : ¬ 0 < us.length) :
    (pollCycle st fetch dispatchOk).2.1 = [.fetchCall st.offset] := by
  simp [pollCycle, hf, hl]

theorem pollCycle_offset_mono (st : PollerState)
    (fetch : Int → Except Unit (List Update)) (dispatchOk : List Update → Bool)
    (hc : ∀ us, fetch st.offset = .ok us → ∀ u ∈ us, st.offset ≤ u.update_id) :
    st.offset ≤ (pollCycle st fetch dispatchOk).1.offset := by
  cases hf : fetch st.offset with
  | error e => simp [pollCycle, hf]
  | ok us =>
      by_cases hl : 0 < us.length
      · by_cases hd : dispatchOk us = true
        · have hne : us ≠ [] := List.length_pos.mp hl
          have hlast := hc us hf (us.getLast hne) (List.getLast_mem hne)
          have hoff : (pollCycle st fetch dispatchOk).1.offset =
              (us.getLast hne).update_id + 1 := by
            simp [pollCycle, hf, hl, hd]
          omega
        · simp [pollCycle, hf, hl, hd]
      · simp [pollCycle, hf, hl]

theorem pollCycle_delivered_ge_offset (st : PollerState)
    (fetch : Int → Except Unit (List Update)) (dispatchOk : List Update → Bool)
    (hc : ∀ us, fetch st.offset = .ok us → ∀ u ∈ us, st.offset ≤ u.update_id)
    (uid : Int)
    (h : 0 < deliveredCount uid (pollCycle st fetch dispatchOk).2.1) :
    st.offset ≤ uid := by
  cases hf : fetch st.offset with
  | error e =>
      rw [pollCycle_trace_of_error st fetch dispatchOk e hf,
        deliveredCount_fetch_only] at h
      omega
  | ok us =>
      by_cases hl : 0 < us.length
      · rw [pollCycle_trace_of_ok st fetch dispatchOk us hf hl,
          deliveredCount_cycle] at h
        by_cases hany : us.any (fun u => u.update_id = uid) = true
        · rcases List.any_eq_true.mp hany with ⟨u, hu, huid⟩
          have hle := hc us hf u hu
          have heq : u.update_id = uid := by simpa using huid
          omega
        · rw [if_neg hany] at h
          omega
      · rw [pollCycle_trace_of_empty st fetch dispatchOk us hf hl,
          deliveredCount_fetch_only] at h
        omega

theorem runPoll_delivered_ge_offset
    (fetch : Nat → Int → Except Unit (List Update))
    (dispatchOk : Nat → List Update → Bool)
    (hc : ∀ k c us, fetch k c = .ok us → ∀ u ∈ us, c ≤ u.update_id) :
    ∀ (n k : Nat) (st : PollerState) (uid : Int),
      0 < deliveredCount uid (runPoll fetch dispatchOk k n st).2 →
      st.offset ≤ uid := by
  intro n
  induction n with
  | zero =>
      intro k st uid h
      simp [runPoll, deliveredCount, dispatchedBatches] at h
  | succ n ih =>
      intro k st uid h
      by_cases hp : st.isPolling
      · rw [runPoll_trace_succ fetch dispatchOk k n st hp,
          deliveredCount_append] at h
        by_cases h0 :
            0 < deliveredCount uid (pollCycle st (fetch k) (dispatchOk k)).2.1
        · exact pollCycle_delivered_ge_offset st (fetch k) (dispatchOk k)
            (fun us hf => hc k st.offset us hf) uid h0
        · have h1 : 0 < deliveredCount uid
              (runPoll fetch dispatchOk (k + 1) n
                (pollCycle st (fetch k) (dispatchOk k)).1).2 := by omega
          have h2 := ih (k + 1) (pollCycle st (fetch k) (dispatchOk k)).1 uid h1
          have h3 := pollCycle_offset_mono st (fetch k) (dispatchOk k)
            (fun us hf => hc k st.offset us hf)
          omega
      · rw [runPoll_trace_stopped fetch dispatchOk k n st
          (Bool.not_eq_true _ ▸ hp)] at h
        simp [deliveredCount, dispatchedBatches] at h

/-- C8 (amended): within a single run an update can only be re-delivered
after a dispatch failure; whenever every awaited dispatch completes
(and the remote API honours its contract: batch events at or past the
requested offset, in ascending order), each `update_id` appears in at
most one batch handed to the dispatch callback — the cursor strictly
advances past every delivered batch. -/
theorem c8_at_most_once_when_dispatch_succeeds
    (fetch : Nat → Int → Except Unit (List Update))
    (dispatchOk : Nat → List Update → Bool)
    (hc : ∀ k c us, fetch k c = .ok us → ∀ u ∈ us, c ≤ u.update_id)
    (hs : ∀ k c us, fetch k c = .ok us →
      List.Chain' (fun a b : Update => a.update_id ≤ b.update_id) us)
    (hd : ∀ k us, dispatchOk k us = true)
    (n k : Nat) (st : PollerState) (uid : Int) :
    deliveredCount uid (runPoll fetch dispatchOk k n st).2 ≤ 1 := by
  induction n generalizing k st with
  | zero => simp [runPoll, deliveredCount, dispatchedBatches]
  | succ n ih =>
      by_cases hp : st.isPolling
      · rw [runPoll_trace_succ fetch dispatchOk k n st hp,
          deliveredCount_append]
        cases hf : fetch k st.offset with
        | error e =>
            rw [pollCycle_trace_of_error st (fetch k) (dispatchOk k) e hf,
              deliveredCount_fetch_only]
            simpa using ih (k + 1) (pollCycle st (fetch k) (dispatchOk k)).1
        | ok us =>
            by_cases hl : 0 < us.length
            · rw [pollCycle_trace_of_ok st (fetch k) (dispatchOk k) us hf hl,
                deliveredCount_cycle]
              by_cases hany : us.any (fun u => u.update_id = uid) = true
              · rw [if_pos hany]
                have hne : us ≠ [] := List.length_pos.mp hl
                rcases List.any_eq_true.mp hany with ⟨u, hu, huid⟩
                have huid' : u.update_id = uid := by simpa using huid
                have hmax := update_le_getLast us (hs k st.offset us hf) hne u hu
                have hoff : (pollCycle st (fetch k) (dispatchOk k)).1.offset =
                    (us.getLast hne).update_id + 1 := by
                  simp [pollCycle, hf, hl, hd k us]
                have hrest : deliveredCount uid
                    (runPoll fetch dispatchOk (k + 1) n
                      (pollCycle st (fetch k) (dispatchOk k)).1).2 = 0 := by
                  by_contra hnz
                  have hpos : 0 < deliveredCount uid
                      (runPoll fetch dispatchOk (k + 1) n
                        (pollCycle st (fetch k) (dispatchOk k)).1).2 := by omega
                  have := runPoll_delivered_ge_offset fetch dispatchOk hc n
                    (k + 1) (pollCycle st (fetch k) (dispatchOk k)).1 uid hpos
                  omega
                omega
              · rw [if_neg hany]
                simpa using ih (k + 1) (pollCycle st (fetch k) (dispatchOk k)).1
            · rw [pollCycle_trace_of_empty st (fetch k) (dispatchOk k) us hf hl,
                deliveredCount_fetch_only]
              simpa using ih (k + 1) (pollCycle st (fetch k) (dispatchOk k)).1
      · rw [runPoll_trace_stopped fetch dispatchOk k n st
          (Bool.not_eq_true _ ▸ hp)]
        simp [deliveredCount, dispatchedBatches]

/-- C8 witness: three cycles over a two-batch stream with every dispatch
completing deliver update 5 exactly once. -/
theorem c8_at_most_once_when_dispatch_succeeds_witness :
    deliveredCount 5 (runPoll
      (fun _ c => if c ≤ 5 then .ok [⟨5, 0⟩, ⟨6, 0⟩] else .ok [])
      (fun _ _ => true) 0 3
      { isPolling := true, offset := 0, scheduled := true }).2 ≤ 1 :=
  c8_at_most_once_when_dispatch_succeeds
    (fun _ c => if c ≤ 5 then .ok [⟨5, 0⟩, ⟨6, 0⟩] else .ok [])
    (fun _ _ => true)
    (by
      intro k c us hf u hu
      by_cases hcle : c ≤ 5
      · simp [hcle] at hf
        subst hf
        simp at hu
        rcases hu with rfl | rfl
        · show c ≤ (5 : Int)
          omega
        · show c ≤ (6 : Int)
          omega
      · simp [hcle] at hf
        subst hf
        cases hu)
    (by
      intro k c us hf
      by_cases hcle : c ≤ 5
      · simp [hcle] at hf
        subst hf
        exact List.chain'_cons.mpr ⟨by decide, List.chain'_singleton _⟩
      · simp [hcle] at hf
        subst hf
        exact List.chain'_nil)
    (fun _ _ => rfl) 3 0
    { isPolling := true, offset := 0, scheduled := true } 5
